import Mathlib

/-!
Verification development for the NRC Tournament Brackets repository.

The frontend form schemas are embedded from the TypeScript sources
(TournamentForm.tsx, the create-tournament page, the create-team page).
The tournament progression engine (PairingEngine, BracketEngine,
ConflictArbiter) is described by the design documents but its code is not
part of the checked-in sources, so those components are modelled from the
specification text and the claims are settled against the model.
-/

namespace NRC

/-! ### Frontend: tournament form schemas

Embedded from `src/frontend/src/components/ui/TournamentForm.tsx`
(tournamentSchema, lines 7-16) and from the standalone create-tournament
page (tournamentSchema, lines 136-144 of the unnamed page source).
`z.string().min(1)` is membership-tested as nonemptiness, `z.number().min(a).max(b)`
as an interval check, and `z.enum [...]` as list membership of the string. -/

structure TournamentFormData where
  name : String
  description : String
  start_date : String
  end_date : String
  swiss_rounds_count : Int
  max_teams : Int
  status : String
  location : Option String
deriving DecidableEq, Repr

/-- Status values of the enum in TournamentForm.tsx line 14. -/
def tournamentFormStatusValues : List String :=
  ["setup", "upcoming", "active", "completed", "cancelled"]

/-- Validation predicate of the zod tournamentSchema in TournamentForm.tsx. -/
def tournamentSchemaForm (d : TournamentFormData) : Prop :=
  d.name ≠ "" ∧ d.description ≠ "" ∧ d.start_date ≠ "" ∧ d.end_date ≠ "" ∧
  1 ≤ d.swiss_rounds_count ∧ d.swiss_rounds_count ≤ 10 ∧
  1 ≤ d.max_teams ∧ d.max_teams ≤ 100 ∧
  d.status ∈ tournamentFormStatusValues

instance (d : TournamentFormData) : Decidable (tournamentSchemaForm d) := by
  unfold tournamentSchemaForm; infer_instance

/-- Form data of the standalone create-tournament page (no location field,
and its status enum lacks the setup value). -/
structure CreateTournamentData where
  name : String
  description : String
  start_date : String
  end_date : String
  swiss_rounds_count : Int
  max_teams : Int
  status : String
deriving DecidableEq, Repr

/-- Status values of the enum in the create-tournament page schema. -/
def createPageStatusValues : List String :=
  ["upcoming", "active", "completed", "cancelled"]

/-- Validation predicate of the zod tournamentSchema on the create-tournament page. -/
def tournamentSchemaCreatePage (d : CreateTournamentData) : Prop :=
  d.name ≠ "" ∧ d.description ≠ "" ∧ d.start_date ≠ "" ∧ d.end_date ≠ "" ∧
  1 ≤ d.swiss_rounds_count ∧ d.swiss_rounds_count ≤ 10 ∧
  1 ≤ d.max_teams ∧ d.max_teams ≤ 100 ∧
  d.status ∈ createPageStatusValues

instance (d : CreateTournamentData) : Decidable (tournamentSchemaCreatePage d) := by
  unfold tournamentSchemaCreatePage; infer_instance

/-- Modelled from the spec: the overall tournament phase values the
specification data model lists for a Tournament (setup, swiss, elimination,
complete).  Kept separate from the code-derived enums above so the two can be
compared. -/
def specTournamentPhases : List String :=
  ["setup", "swiss", "elimination", "complete"]

/-! ### Frontend: team registration schema

Embedded from the create-team page (teamSchema, lines 12-16). -/

structure TeamFormData where
  name : String
  tournament_id : String
  experience_level : String
deriving DecidableEq, Repr

/-- Experience levels of the enum in the create-team page teamSchema. -/
def experienceLevelValues : List String :=
  ["novice", "intermediate", "advanced"]

/-- Validation predicate of the zod teamSchema on the create-team page. -/
def teamSchema (d : TeamFormData) : Prop :=
  d.name ≠ "" ∧ d.tournament_id ≠ "" ∧ d.experience_level ∈ experienceLevelValues

instance (d : TeamFormData) : Decidable (teamSchema d) := by
  unfold teamSchema; infer_instance

/-! ### Frontend: create-tournament submit handler

Embedded from the onSubmit handler of the create-tournament page
(lines 170-188): it compares `new Date(end_date)` with `new Date(start_date)`
and reports an error instead of calling the API when the end date is not
strictly later.  ISO `YYYY-MM-DD` strings are parsed to numeral triples and
compared lexicographically, which agrees with the JavaScript Date ordering on
well-formed date strings; when either string fails to parse, the JavaScript
comparison of an invalid Date is false, so the handler falls through to the
API call, and the model does the same. -/

/-- Split a character list on the dash separator. -/
def splitDash : List Char → List (List Char)
  | [] => [[]]
  | c :: rest =>
    let r := splitDash rest
    if c = '-' then [] :: r
    else
      match r with
      | h :: t => (c :: h) :: t
      | [] => [[c]]

/-- Read a nonempty all-digit character list as a numeral. -/
def digitsToNat : List Char → Option Nat
  | [] => none
  | cs =>
    if cs.all (fun c => c.isDigit) then
      some (cs.foldl (fun acc c => acc * 10 + (c.toNat - 48)) 0)
    else none

def parseISODate (s : String) : Option (Nat × Nat × Nat) :=
  match splitDash s.toList with
  | [y, m, d] =>
    match digitsToNat y, digitsToNat m, digitsToNat d with
    | some a, some b, some c => some (a, b, c)
    | _, _, _ => none
  | _ => none

/-- Lexicographic order on date triples, mirroring Date comparison. -/
def dateLe (a b : Nat × Nat × Nat) : Prop :=
  a.1 < b.1 ∨ (a.1 = b.1 ∧ (a.2.1 < b.2.1 ∨ (a.2.1 = b.2.1 ∧ a.2.2 ≤ b.2.2)))

instance (a b : Nat × Nat × Nat) : Decidable (dateLe a b) := by
  unfold dateLe; infer_instance

/-- Observable outcome of a submit: either the create-tournament API is called
with the submitted data, or a form error is shown and no API call happens. -/
inductive SubmitOutcome where
  | apiCreate (d : CreateTournamentData) : SubmitOutcome
  | dateError (msg : String) : SubmitOutcome
deriving DecidableEq, Repr

/-- The onSubmit handler of the create-tournament page. -/
def onSubmitCreateTournament (d : CreateTournamentData) : SubmitOutcome :=
  match parseISODate d.end_date, parseISODate d.start_date with
  | some de, some ds =>
    if dateLe de ds then .dateError "End date must be after start date"
    else .apiCreate d
  | _, _ => .apiCreate d

/-- The full submit pipeline: react-hook-form runs the zod schema first and
only invokes onSubmit on data that validates. -/
def submitCreateTournament (d : CreateTournamentData) : Option SubmitOutcome :=
  if tournamentSchemaCreatePage d then some (onSubmitCreateTournament d) else none

/-! ### ConflictArbiter

Modelled from the spec: `applyMutation(entityId, expectedVersion, mutationFn)`
over a versioned entity store.  The store maps entity ids to a state and an
optimistic version counter; a mutation whose expected version differs from the
stored one fails with VersionConflict carrying the current authoritative
state, and the store is untouched; a matching version applies the wrapped
function and bumps the version. -/

inductive MutationError (σ : Type) where
  | entityNotFound : MutationError σ
  | versionConflict (current : σ) (version : Nat) : MutationError σ

/-- Versioned entity store: entries of entity id, state, version. -/
abbrev EntityStore (σ : Type) := List (Nat × σ × Nat)

/-- Modelled from the spec: the ConflictArbiter applyMutation contract. -/
def applyMutation (store : EntityStore σ) (entityId expectedVersion : Nat)
    (mutationFn : σ → σ) : Except (MutationError σ) σ × EntityStore σ :=
  match store.find? (fun e => e.1 == entityId) with
  | none => (.error .entityNotFound, store)
  | some (_, s, v) =>
    if v = expectedVersion then
      (.ok (mutationFn s),
        store.map (fun e => if e.1 == entityId then (entityId, mutationFn s, v + 1) else e))
    else
      (.error (.versionConflict s v), store)

/-! ### BracketEngine: result application

Modelled from the spec: `applyResult(matchId, winnerId, scores)` is idempotent
per match id; re-applying the identical winner and scores to a completed match
is a no-op returning the unchanged store, while a different winner or scores
fails with ResultImmutable; a pending match is completed with the given
result and its version bumped. -/

inductive MatchStatus where
  | pending : MatchStatus
  | completed : MatchStatus
deriving DecidableEq, Repr

structure MatchRec where
  mid : Nat
  status : MatchStatus
  winner : Option Nat
  scores : Option (Nat × Nat)
  version : Nat
deriving DecidableEq, Repr

inductive ResultError where
  | matchNotFound : ResultError
  | resultImmutable : ResultError
deriving DecidableEq, Repr

/-- Modelled from the spec: the BracketEngine applyResult contract. -/
def applyResult (store : List MatchRec) (matchId winnerId : Nat)
    (scores : Nat × Nat) : Except ResultError (List MatchRec) :=
  match store.find? (fun m => m.mid == matchId) with
  | none => .error .matchNotFound
  | some m =>
    match m.status with
    | .completed =>
      if m.winner = some winnerId ∧ m.scores = some scores then .ok store
      else .error .resultImmutable
    | .pending =>
      .ok (store.map (fun x =>
        if x.mid == matchId then
          { x with status := .completed, winner := some winnerId,
                   scores := some scores, version := x.version + 1 }
        else x))

/-! ### PairingEngine

Modelled from the spec: `computeNextRound(classId)` sorts the class standings
by wins then tie-break descending, hands out one bye when the team count is
odd (rotated to a team with the fewest byes so far, lowest ranked among
those), and pairs the remaining teams greedily by descending rank, first
looking for an opponent that has not been faced and respects the
novice-versus-advanced guard of the early rounds, then relaxing the
repeat-avoidance constraint (flagging the pairing), then relaxing the tier
guard as well (also flagged).  It fails with PairingImpossible exactly when
the team count is zero, and returns NoMoreRounds once the configured round
count is reached. -/

structure TeamEntry where
  tid : Nat
  wins : Nat
  tieBreak : Nat
  byes : Nat
  tier : Nat
deriving DecidableEq, Repr

/-- Whether the unordered pair of team ids already occurs in the match
history (the full opponents-faced record of the class). -/
def played (a b : Nat) (hist : List (Nat × Nat)) : Bool :=
  hist.contains (a, b) || hist.contains (b, a)

/-- Experience-tier guard: in the first guardRounds rounds a novice (tier 0)
may not face an advanced team (tier 2). -/
def tierOk (roundNum guardRounds : Nat) (x y : TeamEntry) : Bool :=
  guardRounds ≤ roundNum ||
    !((x.tier == 0 && y.tier == 2) || (x.tier == 2 && y.tier == 0))

/-- Standings order: wins descending, then tie-break score descending. -/
def rankBefore (a b : TeamEntry) : Prop :=
  b.wins < a.wins ∨ (a.wins = b.wins ∧ b.tieBreak ≤ a.tieBreak)

instance : DecidableRel rankBefore := fun a b => by
  unfold rankBefore; infer_instance

structure SwissPairing where
  teamA : Nat
  teamB : Nat
  repeatFlagged : Bool
deriving DecidableEq, Repr

/-- Find the first list element satisfying the predicate, returning it with
the remaining elements in order. -/
def findOpponent (p : TeamEntry → Bool) : List TeamEntry → Option (TeamEntry × List TeamEntry)
  | [] => none
  | x :: xs =>
    if p x then some (x, xs)
    else
      match findOpponent p xs with
      | some (o, rest) => some (o, x :: rest)
      | none => none

/-- Greedy pairing pass over the rank-sorted bye-free team list.  The fuel
argument (instantiated with the list length) makes the recursion structural;
every step consumes at least two teams. -/
def pairGreedyAux (hist : List (Nat × Nat)) (r g : Nat) :
    Nat → List TeamEntry → List SwissPairing
  | 0, _ => []
  | _, [] => []
  | _, [_] => []
  | fuel + 1, t :: rest =>
    match findOpponent (fun o => !played t.tid o.tid hist && tierOk r g t o) rest with
    | some (o, rem) => ⟨t.tid, o.tid, false⟩ :: pairGreedyAux hist r g fuel rem
    | none =>
      match findOpponent (fun o => tierOk r g t o) rest with
      | some (o, rem) => ⟨t.tid, o.tid, true⟩ :: pairGreedyAux hist r g fuel rem
      | none =>
        match rest with
        | o :: rem => ⟨t.tid, o.tid, true⟩ :: pairGreedyAux hist r g fuel rem
        | [] => []

def pairGreedy (hist : List (Nat × Nat)) (r g : Nat) (l : List TeamEntry) :
    List SwissPairing :=
  pairGreedyAux hist r g l.length l

/-- Choose the bye recipient: the team with the fewest byes so far, breaking
ties toward the later (lower-ranked) team, together with the remaining
teams. -/
def pickBye : TeamEntry → List TeamEntry → TeamEntry × List TeamEntry
  | c, [] => (c, [])
  | c, x :: xs =>
    if x.byes ≤ c.byes then
      let r := pickBye x xs
      (r.1, c :: r.2)
    else
      let r := pickBye c xs
      (r.1, x :: r.2)

inductive PairingError where
  | pairingImpossible : PairingError
deriving DecidableEq, Repr

inductive RoundResult where
  | noMoreRounds : RoundResult
  | round (pairings : List SwissPairing) (byeTeam : Option Nat) : RoundResult
deriving DecidableEq, Repr

/-- Modelled from the spec: the PairingEngine computeNextRound contract. -/
def computeNextRound (teams : List TeamEntry) (hist : List (Nat × Nat))
    (currentRound configuredRounds guardRounds : Nat) :
    Except PairingError RoundResult :=
  match teams with
  | [] => .error .pairingImpossible
  | _ :: _ =>
    if configuredRounds ≤ currentRound then .ok .noMoreRounds
    else
      let sorted := List.insertionSort rankBefore teams
      match sorted with
      | [] => .ok (.round [] none)
      | s :: ss =>
        if (s :: ss).length % 2 = 1 then
          let pb := pickBye s ss
          .ok (.round (pairGreedy hist currentRound guardRounds pb.2) (some pb.1.tid))
        else
          .ok (.round (pairGreedy hist currentRound guardRounds (s :: ss)) none)

/-- Team ids touched by a list of pairings. -/
def pairedIds : List SwissPairing → List Nat
  | [] => []
  | p :: ps => p.teamA :: p.teamB :: pairedIds ps

/-! ### BracketEngine: double-elimination progression

Modelled from the spec: the double-elimination topology is abstracted as a
winners queue and a losers queue over which matches are played one at a time;
a winners-bracket loser drops into the losers bracket, a losers-bracket loser
is eliminated, and when one team is left in each bracket they meet in the
grand final; if the losers-bracket finalist wins the grand final a second
grand-final match (the bracket reset) is generated, otherwise the bracket
terminates on the first grand-final result.  Byes arise implicitly for
non-power-of-two sizes because an odd queue simply carries its last team into
the next pass.  The result function plays every playable match
deterministically.  The seeded placement order of the spec is abstracted: the
claims settled against this model do not depend on which concrete pairs meet
before the grand final. -/

inductive DEMatchKind where
  | winnersMatch : DEMatchKind
  | losersMatch : DEMatchKind
  | grandFinal : DEMatchKind
  | grandFinalReset : DEMatchKind
deriving DecidableEq, Repr

structure PlayedMatch where
  kind : DEMatchKind
  teamA : Nat
  teamB : Nat
  winner : Nat
deriving DecidableEq, Repr

structure DEState where
  wb : List Nat
  lb : List Nat
  gfDone : Bool
  champion : Option Nat
  log : List PlayedMatch
deriving DecidableEq, Repr

/-- The bracket is terminal when a champion is decided (or it was generated
from an empty seed list). -/
def terminalDE (s : DEState) : Bool :=
  s.champion.isSome || s.wb.isEmpty

/-- Play one match of the bracket, given the deterministic result function. -/
def stepDE (res : Nat → Nat → Nat) (s : DEState) : DEState :=
  match s.wb, s.lb with
  | [], _ => s
  | a :: b :: rest, _ =>
    let w := res a b
    let l := if w = a then b else a
    { s with wb := rest ++ [w], lb := s.lb ++ [l],
             log := s.log ++ [⟨.winnersMatch, a, b, w⟩] }
  | [w], a :: b :: rest =>
    let win := res a b
    { s with wb := [w], lb := rest ++ [win],
             log := s.log ++ [⟨.losersMatch, a, b, win⟩] }
  | [w], [l] =>
    if s.gfDone then
      { s with champion := some (res w l),
               log := s.log ++ [⟨.grandFinalReset, w, l, res w l⟩] }
    else if res w l = w then
      { s with champion := some w, log := s.log ++ [⟨.grandFinal, w, l, w⟩] }
    else
      { s with gfDone := true, log := s.log ++ [⟨.grandFinal, w, l, res w l⟩] }
  | [w], [] => { s with champion := some w }

/-- Total lives remaining: a winners-bracket team can lose twice, a
losers-bracket team once, plus one pending grand-final decision. -/
def dMeasure (s : DEState) : Nat :=
  if s.champion.isSome then 0
  else 2 * s.wb.length + s.lb.length + (if s.gfDone then 0 else 1)

/-- Play matches until the bracket is terminal; the fuel (instantiated with
the initial measure) makes the recursion structural. -/
def runDEAux (res : Nat → Nat → Nat) : Nat → DEState → DEState
  | 0, s => s
  | fuel + 1, s => if terminalDE s then s else runDEAux res fuel (stepDE res s)

/-- Simulate every playable match of the bracket to completion. -/
def runDE (res : Nat → Nat → Nat) (s : DEState) : DEState :=
  runDEAux res (dMeasure s) s

/-- Fresh bracket generated from a seed list. -/
def initDE (seeds : List Nat) : DEState :=
  ⟨seeds, [], false, none, []⟩

/-- Teams still referenced by a bracket state. -/
def teamsOf (s : DEState) : List Nat :=
  s.wb ++ s.lb ++ s.champion.toList

/-! ## Theorems -/

/-- Claim C8 counterexample: the tournament form schema and the
create-tournament page schema both accept a tournament whose status is
cancelled, a value outside the spec phase set setup, swiss, elimination,
complete, so the status field is not drawn from that four-value set. -/
theorem tournament_status_counterexample :
    tournamentSchemaForm ⟨"Spring Open", "robot event", "2024-01-01", "2024-01-02",
      3, 16, "cancelled", none⟩ ∧
    tournamentSchemaCreatePage ⟨"Spring Open", "robot event", "2024-01-01", "2024-01-02",
      3, 16, "cancelled"⟩ ∧
    "cancelled" ∉ specTournamentPhases := by
  refine ⟨by decide, by decide, by decide⟩

/-- Claim C8 amended: every tournament accepted by the shared form schema has
its status drawn from the five values setup, upcoming, active, completed,
cancelled, and every tournament accepted by the create-tournament page schema
has its status drawn from the four values upcoming, active, completed,
cancelled; neither path uses the spec phase values swiss or elimination. -/
theorem tournament_status_enum_amended (d : TournamentFormData) (d2 : CreateTournamentData) :
    (tournamentSchemaForm d → d.status ∈ tournamentFormStatusValues) ∧
    (tournamentSchemaCreatePage d2 → d2.status ∈ createPageStatusValues) ∧
    (d.status = "swiss" ∨ d.status = "elimination" → ¬ tournamentSchemaForm d) ∧
    (d2.status = "swiss" ∨ d2.status = "elimination" → ¬ tournamentSchemaCreatePage d2) := by
  refine ⟨fun h => h.2.2.2.2.2.2.2.2, fun h => h.2.2.2.2.2.2.2.2, ?_, ?_⟩
  · rintro (hs | hs) h
    · have := h.2.2.2.2.2.2.2.2; rw [hs] at this; revert this; decide
    · have := h.2.2.2.2.2.2.2.2; rw [hs] at this; revert this; decide
  · rintro (hs | hs) h
    · have := h.2.2.2.2.2.2.2.2; rw [hs] at this; revert this; decide
    · have := h.2.2.2.2.2.2.2.2; rw [hs] at this; revert this; decide

/-- Witness for the amended claim C8. -/
theorem tournament_status_enum_amended_witness :
    tournamentSchemaForm ⟨"T", "d", "2024-01-01", "2024-01-02", 3, 16, "setup", none⟩ ∧
    ("setup" ∈ tournamentFormStatusValues ∧
      ¬ tournamentSchemaForm ⟨"T", "d", "2024-01-01", "2024-01-02", 3, 16, "swiss", none⟩) :=
  ⟨by decide,
    (tournament_status_enum_amended
        ⟨"T", "d", "2024-01-01", "2024-01-02", 3, 16, "setup", none⟩
        ⟨"T", "d", "2024-01-01", "2024-01-02", 3, 16, "upcoming"⟩).1 (by decide),
    (tournament_status_enum_amended
        ⟨"T", "d", "2024-01-01", "2024-01-02", 3, 16, "swiss", none⟩
        ⟨"T", "d", "2024-01-01", "2024-01-02", 3, 16, "upcoming"⟩).2.2.1 (Or.inl rfl)⟩

/-- Claim C9: the team registration schema accepts only the experience levels
novice, intermediate and advanced, so every stored team has its tier in that
three-element set. -/
theorem team_experience_level_enum (d : TeamFormData) (h : teamSchema d) :
    d.experience_level ∈ experienceLevelValues :=
  h.2.2

/-- Witness for claim C9. -/
theorem team_experience_level_enum_witness :
    teamSchema ⟨"Botbusters", "t1", "novice"⟩ ∧
    "novice" ∈ experienceLevelValues :=
  ⟨by decide, team_experience_level_enum ⟨"Botbusters", "t1", "novice"⟩ (by decide)⟩

/-- Claim C10: on create-tournament submit with data passing the schema, an
end date not strictly after the start date yields exactly the error message
End date must be after start date with no API call, and an end date strictly
after the start date yields an API call with exactly the submitted data. -/
theorem create_tournament_date_guard (d : CreateTournamentData) (ds de : Nat × Nat × Nat)
    (hs : parseISODate d.start_date = some ds) (he : parseISODate d.end_date = some de)
    (hv : tournamentSchemaCreatePage d) :
    (dateLe de ds →
      submitCreateTournament d = some (.dateError "End date must be after start date")) ∧
    (¬ dateLe de ds → submitCreateTournament d = some (.apiCreate d)) := by
  constructor
  · intro hle
    simp [submitCreateTournament, hv, onSubmitCreateTournament, hs, he, hle]
  · intro hgt
    simp [submitCreateTournament, hv, onSubmitCreateTournament, hs, he, hgt]

/-- Witness for claim C10. -/
theorem create_tournament_date_guard_witness :
    (parseISODate "2024-01-02" = some (2024, 1, 2) ∧ ¬ dateLe (2024, 1, 2) (2024, 1, 1) ∧
      submitCreateTournament ⟨"T", "d", "2024-01-01", "2024-01-02", 3, 16, "upcoming"⟩ =
        some (.apiCreate ⟨"T", "d", "2024-01-01", "2024-01-02", 3, 16, "upcoming"⟩)) ∧
    submitCreateTournament ⟨"T", "d", "2024-01-02", "2024-01-01", 3, 16, "upcoming"⟩ =
      some (.dateError "End date must be after start date") := by
  refine ⟨⟨by decide, by decide, ?_⟩, ?_⟩
  · exact (create_tournament_date_guard
      ⟨"T", "d", "2024-01-01", "2024-01-02", 3, 16, "upcoming"⟩
      (2024, 1, 1) (2024, 1, 2) (by decide) (by decide) (by decide)).2 (by decide)
  · exact (create_tournament_date_guard
      ⟨"T", "d", "2024-01-02", "2024-01-01", 3, 16, "upcoming"⟩
      (2024, 1, 2) (2024, 1, 1) (by decide) (by decide) (by decide)).1 (by decide)

/-- Claim C1: an applyMutation call whose expected version differs from the
stored version fails with VersionConflict carrying the current authoritative
state, and the entity store is left completely unchanged. -/
theorem applyMutation_version_conflict {σ : Type} (store : EntityStore σ)
    (entityId expectedVersion : Nat) (f : σ → σ) (j : Nat) (s : σ) (v : Nat)
    (hfind : store.find? (fun e => e.1 == entityId) = some (j, s, v))
    (hv : v ≠ expectedVersion) :
    applyMutation store entityId expectedVersion f = (.error (.versionConflict s v), store) := by
  simp [applyMutation, hfind, hv]

/-- Witness for claim C1. -/
theorem applyMutation_version_conflict_witness :
    ((([(7, 10, 3)] : EntityStore Nat).find? (fun e => e.1 == 7) = some (7, 10, 3)) ∧
      (3 : Nat) ≠ 5) ∧
    applyMutation ([(7, 10, 3)] : EntityStore Nat) 7 5 (fun x => x + 1) =
      (.error (.versionConflict 10 3), [(7, 10, 3)]) :=
  ⟨⟨by decide, by decide⟩,
    applyMutation_version_conflict [(7, 10, 3)] 7 5 (fun x => x + 1) 7 10 3
      (by decide) (by decide)⟩

/-- Claim C2: applyResult is idempotent per match id; re-applying the stored
winner and scores to a completed match is a no-op returning the unchanged
store, and applying a different winner or different scores fails with
ResultImmutable. -/
theorem applyResult_idempotent_immutable (store : List MatchRec) (matchId w : Nat)
    (s : Nat × Nat) (m : MatchRec)
    (hfind : store.find? (fun x => x.mid == matchId) = some m)
    (hst : m.status = .completed) (hw : m.winner = some w) (hs : m.scores = some s) :
    applyResult store matchId w s = .ok store ∧
    ∀ w2 s2, ¬(w2 = w ∧ s2 = s) →
      applyResult store matchId w2 s2 = .error .resultImmutable := by
  constructor
  · simp [applyResult, hfind, hst, hw, hs]
  · intro w2 s2 hne
    simp only [applyResult, hfind, hst, hw, hs]
    rw [if_neg]
    rintro ⟨h1, h2⟩
    exact hne ⟨(Option.some.injEq _ _ ▸ h1).symm, (Option.some.injEq _ _ ▸ h2).symm⟩

/-- Witness for claim C2. -/
theorem applyResult_idempotent_immutable_witness :
    (([⟨5, .completed, some 2, some (3, 1), 4⟩] : List MatchRec).find?
        (fun x => x.mid == 5) = some ⟨5, .completed, some 2, some (3, 1), 4⟩) ∧
    applyResult [⟨5, .completed, some 2, some (3, 1), 4⟩] 5 2 (3, 1) =
      .ok [⟨5, .completed, some 2, some (3, 1), 4⟩] ∧
    applyResult [⟨5, .completed, some 2, some (3, 1), 4⟩] 5 9 (3, 1) =
      .error .resultImmutable := by
  have h := applyResult_idempotent_immutable
    [⟨5, .completed, some 2, some (3, 1), 4⟩] 5 2 (3, 1)
    ⟨5, .completed, some 2, some (3, 1), 4⟩ (by decide) rfl rfl rfl
  exact ⟨by decide, h.1, h.2 9 (3, 1) (by simp)⟩

/-- A found opponent satisfies the search predicate and the searched list is
a permutation of the opponent together with the remaining teams. -/
theorem findOpponent_some (p : TeamEntry → Bool) (l : List TeamEntry)
    (o : TeamEntry) (rem : List TeamEntry) (h : findOpponent p l = some (o, rem)) :
    p o = true ∧ l.Perm (o :: rem) := by
  induction l generalizing o rem with
  | nil => simp [findOpponent] at h
  | cons x xs ih =>
    rw [findOpponent] at h
    by_cases hx : p x
    · rw [if_pos hx] at h
      obtain ⟨rfl, rfl⟩ : x = o ∧ xs = rem := by simpa using h
      exact ⟨hx, List.Perm.refl _⟩
    · rw [if_neg hx] at h
      cases hfo : findOpponent p xs with
      | none => rw [hfo] at h; cases h
      | some pr =>
        obtain ⟨o2, rest⟩ := pr
        rw [hfo] at h
        obtain ⟨h1, h2⟩ : o2 = o ∧ x :: rest = rem := by simpa using h
        subst h1
        subst h2
        obtain ⟨hpo, hp⟩ := ih _ rest hfo
        exact ⟨hpo, (hp.cons x).trans (List.Perm.swap _ x rest)⟩

/-- Every pairing the greedy pass emits without the repeat flag is between
teams that have not already faced each other. -/
theorem pairGreedyAux_unflagged (hist : List (Nat × Nat)) (r g : Nat) :
    ∀ (fuel : Nat) (l : List TeamEntry) (p : SwissPairing),
      p ∈ pairGreedyAux hist r g fuel l → p.repeatFlagged = false →
      played p.teamA p.teamB hist = false := by
  intro fuel
  induction fuel with
  | zero => intro l p hp _; simp [pairGreedyAux] at hp
  | succ fuel ih =>
    intro l p hp hflag
    match l with
    | [] => simp [pairGreedyAux] at hp
    | [t] => simp [pairGreedyAux] at hp
    | t :: t2 :: rest =>
      rw [pairGreedyAux] at hp
      cases hf1 : findOpponent (fun o => !played t.tid o.tid hist && tierOk r g t o)
          (t2 :: rest) with
      | some pr =>
        obtain ⟨o, rem⟩ := pr
        rw [hf1] at hp
        rcases List.mem_cons.mp hp with rfl | hp2
        · have hpred := (findOpponent_some _ _ _ _ hf1).1
          have := (Bool.and_eq_true _ _).mp hpred
          simpa using this.1
        · exact ih rem p hp2 hflag
      | none =>
        rw [hf1] at hp
        cases hf2 : findOpponent (fun o => tierOk r g t o) (t2 :: rest) with
        | some pr =>
          obtain ⟨o, rem⟩ := pr
          rw [hf2] at hp
          rcases List.mem_cons.mp hp with rfl | hp2
          · simp at hflag
          · exact ih rem p hp2 hflag
        | none =>
          rw [hf2] at hp
          rcases List.mem_cons.mp hp with rfl | hp2
          · simp at hflag
          · exact ih rest p hp2 hflag

/-- Every team id appearing in a greedy pass output comes from the input
team list. -/
theorem pairGreedyAux_subset (hist : List (Nat × Nat)) (r g : Nat) :
    ∀ (fuel : Nat) (l : List TeamEntry) (x : Nat),
      x ∈ pairedIds (pairGreedyAux hist r g fuel l) → x ∈ l.map TeamEntry.tid := by
  intro fuel
  induction fuel with
  | zero => intro l x hx; simp [pairGreedyAux, pairedIds] at hx
  | succ fuel ih =>
    intro l x hx
    match l with
    | [] => simp [pairGreedyAux, pairedIds] at hx
    | [t] => simp [pairGreedyAux, pairedIds] at hx
    | t :: t2 :: rest =>
      rw [pairGreedyAux] at hx
      cases hf1 : findOpponent (fun o => !played t.tid o.tid hist && tierOk r g t o)
          (t2 :: rest) with
      | some pr =>
        obtain ⟨o, rem⟩ := pr
        rw [hf1] at hx
        have hperm := (findOpponent_some _ _ _ _ hf1).2
        rw [pairedIds] at hx
        rcases List.mem_cons.mp hx with rfl | hx2
        · simp
        rcases List.mem_cons.mp hx2 with rfl | hx3
        · have ho : o ∈ t2 :: rest := hperm.mem_iff.mpr (List.mem_cons_self o rem)
          exact List.mem_cons_of_mem _ (List.mem_map_of_mem TeamEntry.tid ho)
        · have hxr := ih rem x hx3
          have : x ∈ (t2 :: rest).map TeamEntry.tid :=
            (hperm.map TeamEntry.tid).mem_iff.mpr (List.mem_cons_of_mem _ hxr)
          exact List.mem_cons_of_mem _ this
      | none =>
        rw [hf1] at hx
        cases hf2 : findOpponent (fun o => tierOk r g t o) (t2 :: rest) with
        | some pr =>
          obtain ⟨o, rem⟩ := pr
          rw [hf2] at hx
          have hperm := (findOpponent_some _ _ _ _ hf2).2
          rw [pairedIds] at hx
          rcases List.mem_cons.mp hx with rfl | hx2
          · simp
          rcases List.mem_cons.mp hx2 with rfl | hx3
          · have ho : o ∈ t2 :: rest := hperm.mem_iff.mpr (List.mem_cons_self o rem)
            exact List.mem_cons_of_mem _ (List.mem_map_of_mem TeamEntry.tid ho)
          · have hxr := ih rem x hx3
            have : x ∈ (t2 :: rest).map TeamEntry.tid :=
              (hperm.map TeamEntry.tid).mem_iff.mpr (List.mem_cons_of_mem _ hxr)
            exact List.mem_cons_of_mem _ this
        | none =>
          rw [hf2] at hx
          rw [pairedIds] at hx
          rcases List.mem_cons.mp hx with rfl | hx2
          · simp
          rcases List.mem_cons.mp hx2 with rfl | hx3
          · simp
          · exact List.mem_cons_of_mem _ (List.mem_cons_of_mem _ (ih rest x hx3))

/-- On a team list with distinct ids, the greedy pass uses every team in at
most one pairing. -/
theorem pairGreedyAux_nodup (hist : List (Nat × Nat)) (r g : Nat) :
    ∀ (fuel : Nat) (l : List TeamEntry),
      (l.map TeamEntry.tid).Nodup → (pairedIds (pairGreedyAux hist r g fuel l)).Nodup := by
  intro fuel
  induction fuel with
  | zero => intro l _; simp [pairGreedyAux, pairedIds]
  | succ fuel ih =>
    intro l hnd
    match l with
    | [] => simp [pairGreedyAux, pairedIds]
    | [t] => simp [pairGreedyAux, pairedIds]
    | t :: t2 :: rest =>
      rw [List.map_cons, List.nodup_cons] at hnd
      obtain ⟨ht, hnd2⟩ := hnd
      rw [pairGreedyAux]
      cases hf1 : findOpponent (fun o => !played t.tid o.tid hist && tierOk r g t o)
          (t2 :: rest) with
      | some pr =>
        obtain ⟨o, rem⟩ := pr
        have hperm := (findOpponent_some _ _ _ _ hf1).2
        have hmp : ((t2 :: rest).map TeamEntry.tid).Perm (o.tid :: rem.map TeamEntry.tid) := by
          simpa using hperm.map TeamEntry.tid
        have hnd3 : (o.tid :: rem.map TeamEntry.tid).Nodup := hmp.nodup_iff.mp hnd2
        rw [List.nodup_cons] at hnd3
        obtain ⟨ho, hndrem⟩ := hnd3
        rw [pairedIds]
        dsimp only
        rw [List.nodup_cons, List.nodup_cons]
        refine ⟨?_, ?_, ih rem hndrem⟩
        · rw [List.mem_cons]
          rintro (h | h)
          · exact ht (hmp.mem_iff.mpr (by rw [h]; exact List.mem_cons_self _ _))
          · exact ht (hmp.mem_iff.mpr (List.mem_cons_of_mem _
              (pairGreedyAux_subset hist r g fuel rem t.tid h)))
        · exact fun h => ho (pairGreedyAux_subset hist r g fuel rem o.tid h)
      | none =>
        cases hf2 : findOpponent (fun o => tierOk r g t o) (t2 :: rest) with
        | some pr =>
          obtain ⟨o, rem⟩ := pr
          have hperm := (findOpponent_some _ _ _ _ hf2).2
          have hmp : ((t2 :: rest).map TeamEntry.tid).Perm (o.tid :: rem.map TeamEntry.tid) := by
            simpa using hperm.map TeamEntry.tid
          have hnd3 : (o.tid :: rem.map TeamEntry.tid).Nodup := hmp.nodup_iff.mp hnd2
          rw [List.nodup_cons] at hnd3
          obtain ⟨ho, hndrem⟩ := hnd3
          rw [pairedIds]
          dsimp only
          rw [List.nodup_cons, List.nodup_cons]
          refine ⟨?_, ?_, ih rem hndrem⟩
          · rw [List.mem_cons]
            rintro (h | h)
            · exact ht (hmp.mem_iff.mpr (by rw [h]; exact List.mem_cons_self _ _))
            · exact ht (hmp.mem_iff.mpr (List.mem_cons_of_mem _
                (pairGreedyAux_subset hist r g fuel rem t.tid h)))
          · exact fun h => ho (pairGreedyAux_subset hist r g fuel rem o.tid h)
        | none =>
          rw [List.map_cons, List.nodup_cons] at hnd2
          obtain ⟨ht2, hndrest⟩ := hnd2
          rw [pairedIds]
          dsimp only
          rw [List.nodup_cons, List.nodup_cons]
          refine ⟨?_, ?_, ih rest hndrest⟩
          · rw [List.mem_cons]
            rintro (h | h)
            · exact ht (by rw [h]; exact List.mem_cons_self _ _)
            · exact ht (List.mem_cons_of_mem _
                (pairGreedyAux_subset hist r g fuel rest t.tid h))
          · exact fun h => ht2 (pairGreedyAux_subset hist r g fuel rest t2.tid h)

/-- The bye pick together with the remaining teams is a permutation of the
candidates. -/
theorem pickBye_perm : ∀ (c : TeamEntry) (l : List TeamEntry),
    ((pickBye c l).1 :: (pickBye c l).2).Perm (c :: l) := by
  intro c l
  induction l generalizing c with
  | nil => simp [pickBye]
  | cons x xs ih =>
    rw [pickBye]
    by_cases h : x.byes ≤ c.byes
    · rw [if_pos h]
      exact (List.Perm.swap c (pickBye x xs).1 (pickBye x xs).2).trans ((ih x).cons c)
    · rw [if_neg h]
      exact ((List.Perm.swap x (pickBye c xs).1 (pickBye c xs).2).trans
        ((ih c).cons x)).trans (List.Perm.swap c x xs)

/-- The bye pick has the fewest byes among all candidates. -/
theorem pickBye_min : ∀ (c : TeamEntry) (l : List TeamEntry) (x : TeamEntry),
    x ∈ c :: l → (pickBye c l).1.byes ≤ x.byes := by
  intro c l
  induction l generalizing c with
  | nil =>
    intro x hx
    rcases List.mem_cons.mp hx with h | h
    · rw [h]; simp [pickBye]
    · cases h
  | cons y ys ih =>
    intro x hx
    rw [pickBye]
    by_cases h : y.byes ≤ c.byes
    · rw [if_pos h]
      rcases List.mem_cons.mp hx with h2 | hx2
      · rw [h2]
        exact le_trans (ih y y (List.mem_cons_self y ys)) h
      · exact ih y x hx2
    · rw [if_neg h]
      rcases List.mem_cons.mp hx with h2 | hx2
      · rw [h2]
        exact ih c c (List.mem_cons_self c ys)
      rcases List.mem_cons.mp hx2 with h2 | hx3
      · rw [h2]
        exact le_trans (ih c c (List.mem_cons_self c ys)) (le_of_not_le h)
      · exact ih c x (List.mem_cons_of_mem c hx3)

/-- Claim C7: computeNextRound fails, with PairingImpossible, exactly when
the team list is empty; any class with at least one team always gets a
result, with odd counts handled by a bye and pool exhaustion handled by a
flagged relaxation rather than a failure. -/
theorem computeNextRound_error_iff_no_teams (teams : List TeamEntry)
    (hist : List (Nat × Nat)) (r k g : Nat) :
    (computeNextRound teams hist r k g = .error .pairingImpossible ↔ teams = []) ∧
    (teams ≠ [] → ∃ res, computeNextRound teams hist r k g = .ok res) := by
  cases teams with
  | nil => exact ⟨by simp [computeNextRound], by simp⟩
  | cons t ts =>
    have hok : ∃ res, computeNextRound (t :: ts) hist r k g = .ok res := by
      rw [computeNextRound]
      by_cases hr : k ≤ r
      · rw [if_pos hr]; exact ⟨_, rfl⟩
      · rw [if_neg hr]
        cases hs : List.insertionSort rankBefore (t :: ts) with
        | nil => exact ⟨_, rfl⟩
        | cons s ss =>
          dsimp only
          by_cases hodd : (s :: ss).length % 2 = 1
          · rw [if_pos hodd]; exact ⟨_, rfl⟩
          · rw [if_neg hodd]; exact ⟨_, rfl⟩
    refine ⟨⟨fun h => ?_, fun h => by cases h⟩, fun _ => hok⟩
    obtain ⟨res, hres⟩ := hok
    rw [hres] at h
    cases h

/-- Witness for claim C7. -/
theorem computeNextRound_error_iff_no_teams_witness :
    computeNextRound [] [] 0 3 1 = .error .pairingImpossible ∧
    (([⟨1, 0, 0, 0, 0⟩] : List TeamEntry) ≠ [] ∧
      ∃ res, computeNextRound [⟨1, 0, 0, 0, 0⟩] [] 0 3 1 = .ok res) :=
  ⟨(computeNextRound_error_iff_no_teams [] [] 0 3 1).1.mpr rfl,
    List.cons_ne_nil _ _,
    (computeNextRound_error_iff_no_teams [⟨1, 0, 0, 0, 0⟩] [] 0 3 1).2
      (List.cons_ne_nil _ _)⟩

/-- Claim C3: in a generated round every pairing that is not flagged as a
forced repeat is between teams that have not met anywhere in the supplied
match history of the Swiss phase, and on a roster with distinct team ids no
team is used in two pairings of the round, so an unflagged pairing can occur
at most once across the phase. -/
theorem swiss_unflagged_pairings_fresh (teams : List TeamEntry) (hist : List (Nat × Nat))
    (r k g : Nat) (ps : List SwissPairing) (bye : Option Nat)
    (hnd : (teams.map TeamEntry.tid).Nodup)
    (hres : computeNextRound teams hist r k g = .ok (.round ps bye)) :
    (∀ p ∈ ps, p.repeatFlagged = false → played p.teamA p.teamB hist = false) ∧
    (pairedIds ps).Nodup := by
  cases teams with
  | nil => simp [computeNextRound] at hres
  | cons t ts =>
    rw [computeNextRound] at hres
    by_cases hr : k ≤ r
    · rw [if_pos hr] at hres
      exact absurd hres (by simp)
    · rw [if_neg hr] at hres
      cases hs : List.insertionSort rankBefore (t :: ts) with
      | nil =>
        rw [hs] at hres
        obtain ⟨hps, _⟩ : ([] : List SwissPairing) = ps ∧ (none : Option Nat) = bye := by
          simpa using hres
        subst hps
        exact ⟨by simp, by simp [pairedIds]⟩
      | cons s ss =>
        rw [hs] at hres
        dsimp only at hres
        have hperm : (s :: ss).Perm (t :: ts) := hs ▸ List.perm_insertionSort rankBefore (t :: ts)
        have hndss : ((s :: ss).map TeamEntry.tid).Nodup :=
          (hperm.map TeamEntry.tid).nodup_iff.mpr hnd
        by_cases hodd : (s :: ss).length % 2 = 1
        · rw [if_pos hodd] at hres
          obtain ⟨hps, _⟩ : pairGreedy hist r g (pickBye s ss).2 = ps ∧ _ := by
            simpa using hres
          subst hps
          have hbperm := pickBye_perm s ss
          have hndrest : ((pickBye s ss).2.map TeamEntry.tid).Nodup := by
            have : (((pickBye s ss).1 :: (pickBye s ss).2).map TeamEntry.tid).Nodup :=
              (hbperm.map TeamEntry.tid).nodup_iff.mpr hndss
            rw [List.map_cons] at this
            exact this.of_cons
          exact ⟨fun p hp hf => pairGreedyAux_unflagged hist r g _ _ p hp hf,
            pairGreedyAux_nodup hist r g _ _ hndrest⟩
        · rw [if_neg hodd] at hres
          obtain ⟨hps, _⟩ : pairGreedy hist r g (s :: ss) = ps ∧ _ := by
            simpa using hres
          subst hps
          exact ⟨fun p hp hf => pairGreedyAux_unflagged hist r g _ _ p hp hf,
            pairGreedyAux_nodup hist r g _ _ hndss⟩

/-- Witness for claim C3, on the five-team scenario of the spec. -/
theorem swiss_unflagged_pairings_fresh_witness :
    (([⟨1, 0, 0, 0, 1⟩, ⟨2, 0, 0, 0, 1⟩, ⟨3, 0, 0, 0, 1⟩, ⟨4, 0, 0, 0, 1⟩,
        ⟨5, 0, 0, 0, 1⟩] : List TeamEntry).map TeamEntry.tid).Nodup ∧
    ((∀ p ∈ [(⟨1, 2, false⟩ : SwissPairing), ⟨3, 4, false⟩], p.repeatFlagged = false →
        played p.teamA p.teamB [] = false) ∧
      (pairedIds [(⟨1, 2, false⟩ : SwissPairing), ⟨3, 4, false⟩]).Nodup) :=
  ⟨by decide,
    swiss_unflagged_pairings_fresh
      [⟨1, 0, 0, 0, 1⟩, ⟨2, 0, 0, 0, 1⟩, ⟨3, 0, 0, 0, 1⟩, ⟨4, 0, 0, 0, 1⟩, ⟨5, 0, 0, 0, 1⟩]
      [] 0 3 1 [⟨1, 2, false⟩, ⟨3, 4, false⟩] (some 5) (by decide) rfl⟩

/-- Claim C4: a round computed for an odd team count carries exactly one bye,
given to a team holding the minimum number of byes so far; in particular no
team receives a second bye while a team with zero byes is available. -/
theorem swiss_single_bye_min_byes (teams : List TeamEntry) (hist : List (Nat × Nat))
    (r k g : Nat) (hodd : teams.length % 2 = 1) (hr : r < k) :
    ∃ ps b, computeNextRound teams hist r k g = .ok (.round ps (some b)) ∧
      ∃ e ∈ teams, e.tid = b ∧ (∀ u ∈ teams, e.byes ≤ u.byes) ∧
        ((∃ u ∈ teams, u.byes = 0) → e.byes = 0) := by
  cases teams with
  | nil => simp at hodd
  | cons t ts =>
    rw [computeNextRound]
    rw [if_neg (not_le.mpr hr)]
    cases hs : List.insertionSort rankBefore (t :: ts) with
    | nil =>
      have hp := List.perm_insertionSort rankBefore (t :: ts)
      rw [hs] at hp
      simpa using hp.length_eq
    | cons s ss =>
      dsimp only
      have hperm : (s :: ss).Perm (t :: ts) := hs ▸ List.perm_insertionSort rankBefore (t :: ts)
      have hlen : (s :: ss).length = (t :: ts).length := hperm.length_eq
      rw [if_pos (by rw [hlen]; exact hodd)]
      refine ⟨_, _, rfl, (pickBye s ss).1, ?_, rfl, ?_, ?_⟩
      · exact hperm.mem_iff.mp ((pickBye_perm s ss).mem_iff.mp (List.mem_cons_self _ _))
      · intro u hu
        exact pickBye_min s ss u (hperm.mem_iff.mpr hu)
      · rintro ⟨u, hu, hu0⟩
        exact Nat.le_zero.mp (hu0 ▸ pickBye_min s ss u (hperm.mem_iff.mpr hu))

/-- Witness for claim C4. -/
theorem swiss_single_bye_min_byes_witness :
    (([⟨1, 1, 0, 0, 1⟩, ⟨3, 1, 0, 0, 1⟩, ⟨5, 1, 0, 1, 1⟩, ⟨2, 0, 0, 0, 1⟩,
        ⟨4, 0, 0, 0, 1⟩] : List TeamEntry).length % 2 = 1 ∧ 1 < 3) ∧
    (∃ ps b, computeNextRound
        [⟨1, 1, 0, 0, 1⟩, ⟨3, 1, 0, 0, 1⟩, ⟨5, 1, 0, 1, 1⟩, ⟨2, 0, 0, 0, 1⟩, ⟨4, 0, 0, 0, 1⟩]
        [(1, 2), (3, 4)] 1 3 1 = .ok (.round ps (some b)) ∧
      ∃ e ∈ ([⟨1, 1, 0, 0, 1⟩, ⟨3, 1, 0, 0, 1⟩, ⟨5, 1, 0, 1, 1⟩, ⟨2, 0, 0, 0, 1⟩,
          ⟨4, 0, 0, 0, 1⟩] : List TeamEntry), e.tid = b ∧
        (∀ u ∈ ([⟨1, 1, 0, 0, 1⟩, ⟨3, 1, 0, 0, 1⟩, ⟨5, 1, 0, 1, 1⟩, ⟨2, 0, 0, 0, 1⟩,
            ⟨4, 0, 0, 0, 1⟩] : List TeamEntry), e.byes ≤ u.byes) ∧
        ((∃ u ∈ ([⟨1, 1, 0, 0, 1⟩, ⟨3, 1, 0, 0, 1⟩, ⟨5, 1, 0, 1, 1⟩, ⟨2, 0, 0, 0, 1⟩,
            ⟨4, 0, 0, 0, 1⟩] : List TeamEntry), u.byes = 0) → e.byes = 0)) :=
  ⟨⟨by decide, by decide⟩,
    swiss_single_bye_min_byes
      [⟨1, 1, 0, 0, 1⟩, ⟨3, 1, 0, 0, 1⟩, ⟨5, 1, 0, 1, 1⟩, ⟨2, 0, 0, 0, 1⟩, ⟨4, 0, 0, 0, 1⟩]
      [(1, 2), (3, 4)] 1 3 1 (by decide) (by decide)⟩

/-- A non-terminal bracket state has positive measure. -/
theorem dMeasure_pos (s : DEState) (h : terminalDE s = false) : 0 < dMeasure s := by
  obtain ⟨wb, lb, gf, ch, log⟩ := s
  rw [terminalDE] at h
  simp only [Bool.or_eq_false_iff] at h
  obtain ⟨hch, hwb⟩ := h
  cases ch with
  | some c => simp at hch
  | none =>
    rcases wb with _ | ⟨a, wb2⟩
    · simp at hwb
    · cases gf <;> simp [dMeasure]

/-- Each played match strictly decreases the bracket measure. -/
theorem stepDE_measure (res : Nat → Nat → Nat) (s : DEState)
    (h : terminalDE s = false) : dMeasure (stepDE res s) < dMeasure s := by
  obtain ⟨wb, lb, gf, ch, log⟩ := s
  rw [terminalDE] at h
  simp only [Bool.or_eq_false_iff] at h
  obtain ⟨hch, hwb⟩ := h
  cases ch with
  | some c => simp at hch
  | none =>
    rcases wb with _ | ⟨a, _ | ⟨b, rest⟩⟩
    · simp at hwb
    · rcases lb with _ | ⟨p, _ | ⟨q, lb3⟩⟩
      · cases gf <;> simp [stepDE, dMeasure]
      · cases gf
        · by_cases hw : res a p = a
          · simp [stepDE, dMeasure, hw]
          · simp [stepDE, dMeasure, hw]
        · simp [stepDE, dMeasure]
      · cases gf <;> simp [stepDE, dMeasure]
    · cases gf <;> simp [stepDE, dMeasure] <;> omega

/-- With fuel at least the measure, the simulation reaches a terminal
state. -/
theorem runDEAux_terminal (res : Nat → Nat → Nat) :
    ∀ (fuel : Nat) (s : DEState), dMeasure s ≤ fuel →
      terminalDE (runDEAux res fuel s) = true := by
  intro fuel
  induction fuel with
  | zero =>
    intro s hs
    rw [runDEAux]
    cases htm : terminalDE s with
    | true => rfl
    | false =>
      have := dMeasure_pos s htm
      omega
  | succ fuel ih =>
    intro s hs
    rw [runDEAux]
    cases htm : terminalDE s with
    | true => simp [htm]
    | false =>
      rw [if_neg (by simp [htm])]
      refine ih (stepDE res s) ?_
      have := stepDE_measure res s htm
      omega

/-- A step never empties the winners bracket. -/
theorem stepDE_wb_ne (res : Nat → Nat → Nat) (s : DEState) (h : s.wb ≠ []) :
    (stepDE res s).wb ≠ [] := by
  obtain ⟨wb, lb, gf, ch, log⟩ := s
  rcases wb with _ | ⟨a, _ | ⟨b, rest⟩⟩
  · simp at h
  · rcases lb with _ | ⟨p, _ | ⟨q, lb3⟩⟩
    · simp [stepDE]
    · cases gf
      · by_cases hw : res a p = a <;> simp [stepDE, hw]
      · simp [stepDE]
    · simp [stepDE]
  · simp [stepDE]

/-- The simulation never empties the winners bracket. -/
theorem runDEAux_wb_ne (res : Nat → Nat → Nat) :
    ∀ (fuel : Nat) (s : DEState), s.wb ≠ [] → (runDEAux res fuel s).wb ≠ [] := by
  intro fuel
  induction fuel with
  | zero => intro s h; exact h
  | succ fuel ih =>
    intro s h
    rw [runDEAux]
    cases htm : terminalDE s with
    | true => simp [htm]; exact h
    | false =>
      rw [if_neg (by simp [htm])]
      exact ih (stepDE res s) (stepDE_wb_ne res s h)

/-- When the result function always returns one of its two arguments, a step
introduces no team from outside the bracket. -/
theorem stepDE_teams (res : Nat → Nat → Nat)
    (hres : ∀ a b, res a b = a ∨ res a b = b) (s : DEState) :
    ∀ x, x ∈ teamsOf (stepDE res s) → x ∈ teamsOf s := by
  intro x hx
  obtain ⟨wb, lb, gf, ch, log⟩ := s
  rcases wb with _ | ⟨a, _ | ⟨b, rest⟩⟩
  · exact hx
  · rcases lb with _ | ⟨p, _ | ⟨q, lb3⟩⟩
    · simp [stepDE, teamsOf] at hx ⊢
      tauto
    · cases gf
      · by_cases hw : res a p = a
        · simp [stepDE, teamsOf, hw] at hx ⊢
          tauto
        · simp [stepDE, teamsOf, hw] at hx ⊢
          tauto
      · simp [stepDE, teamsOf] at hx ⊢
        rcases hres a p with h | h <;> rw [h] at hx <;> tauto
    · simp [stepDE, teamsOf] at hx ⊢
      rcases hres p q with h | h <;> rw [h] at hx <;> tauto
  · simp [stepDE, teamsOf] at hx ⊢
    by_cases hw : res a b = a
    · simp [hw] at hx
      tauto
    · have hb : res a b = b := (hres a b).resolve_left hw
      have hba : ¬ b = a := fun e => hw (by rw [hb, e])
      simp [hb, hba] at hx
      tauto

/-- The simulation references only teams present in the starting state. -/
theorem runDEAux_teams (res : Nat → Nat → Nat)
    (hres : ∀ a b, res a b = a ∨ res a b = b) :
    ∀ (fuel : Nat) (s : DEState) (x : Nat),
      x ∈ teamsOf (runDEAux res fuel s) → x ∈ teamsOf s := by
  intro fuel
  induction fuel with
  | zero => intro s x hx; exact hx
  | succ fuel ih =>
    intro s x hx
    rw [runDEAux] at hx
    cases htm : terminalDE s with
    | true => rw [if_pos (by simp [htm])] at hx; exact hx
    | false =>
      rw [if_neg (by simp [htm])] at hx
      exact stepDE_teams res hres s x (ih (stepDE res s) x hx)

/-- Claim C5: deterministically simulating every playable match of a
double-elimination bracket generated from any nonempty seed list terminates
in a fully terminal state with exactly one tournament winner, and that
winner is one of the seeds. -/
theorem doubleElim_unique_champion (res : Nat → Nat → Nat) (seeds : List Nat)
    (hres : ∀ a b, res a b = a ∨ res a b = b) (hne : seeds ≠ []) :
    (∃! c, (runDE res (initDE seeds)).champion = some c) ∧
    (∀ c, (runDE res (initDE seeds)).champion = some c → c ∈ seeds) ∧
    terminalDE (runDE res (initDE seeds)) = true := by
  have hterm : terminalDE (runDE res (initDE seeds)) = true :=
    runDEAux_terminal res _ _ (le_refl _)
  have hwb : (runDE res (initDE seeds)).wb ≠ [] :=
    runDEAux_wb_ne res _ _ (by simpa [initDE] using hne)
  have hch : (runDE res (initDE seeds)).champion.isSome = true := by
    rw [terminalDE, Bool.or_eq_true] at hterm
    rcases hterm with h | h
    · exact h
    · exact absurd (List.isEmpty_iff.mp h) hwb
  obtain ⟨c, hc⟩ := Option.isSome_iff_exists.mp hch
  refine ⟨⟨c, hc, fun y hy => ?_⟩, fun c2 hc2 => ?_, hterm⟩
  · rw [hy] at hc
    exact Option.some.inj hc
  · have hmem : c2 ∈ teamsOf (runDE res (initDE seeds)) := by
      simp [teamsOf, hc2]
    have := runDEAux_teams res hres _ _ c2 hmem
    simpa [teamsOf, initDE] using this

/-- Witness for claim C5. -/
theorem doubleElim_unique_champion_witness :
    ((∀ a b : Nat, min a b = a ∨ min a b = b) ∧ ([1, 2, 3, 4, 5] : List Nat) ≠ []) ∧
    ((∃! c, (runDE min (initDE [1, 2, 3, 4, 5])).champion = some c) ∧
      (∀ c, (runDE min (initDE [1, 2, 3, 4, 5])).champion = some c → c ∈ [1, 2, 3, 4, 5]) ∧
      terminalDE (runDE min (initDE [1, 2, 3, 4, 5])) = true) :=
  ⟨⟨fun a b => min_choice a b, by decide⟩,
    doubleElim_unique_champion min [1, 2, 3, 4, 5]
      (fun a b => min_choice a b) (by decide)⟩

/-- Claim C6: from the first grand final between the winners-bracket
finalist and the losers-bracket finalist, a win by the winners-bracket
finalist terminates the bracket on that single grand-final result, while a
win by the losers-bracket finalist generates exactly one further match, the
second grand final, whose result decides the champion. -/
theorem grandFinal_reset_iff (res : Nat → Nat → Nat) (w l : Nat) (hne : w ≠ l) :
    (res w l = w →
      runDE res ⟨[w], [l], false, none, []⟩ =
        ⟨[w], [l], false, some w, [⟨.grandFinal, w, l, w⟩]⟩) ∧
    (res w l = l →
      runDE res ⟨[w], [l], false, none, []⟩ =
        ⟨[w], [l], true, some l, [⟨.grandFinal, w, l, l⟩, ⟨.grandFinalReset, w, l, l⟩]⟩) := by
  constructor
  · intro hw
    show runDEAux res 3 (stepDE res ⟨[w], [l], false, none, []⟩) = _
    rw [stepDE]
    dsimp only
    rw [if_pos hw, hw]
    rfl
  · intro hl
    have hnw : ¬ res w l = w := by rw [hl]; exact fun e => hne e.symm
    show runDEAux res 3 (stepDE res ⟨[w], [l], false, none, []⟩) = _
    rw [stepDE]
    dsimp only
    rw [if_neg hnw, hl]
    show runDEAux res 2 (stepDE res ⟨[w], [l], true, none, [⟨.grandFinal, w, l, l⟩]⟩) = _
    rw [stepDE]
    dsimp only
    rw [hl]
    rfl

/-- Witness for claim C6: with a result function favouring the second team,
the losers-bracket finalist wins grand final one and the bracket reset match
is generated; the first part is witnessed through the first-team function. -/
theorem grandFinal_reset_iff_witness :
    ((1 : Nat) ≠ 2 ∧
      runDE (fun _ b => b) ⟨[1], [2], false, none, []⟩ =
        ⟨[1], [2], true, some 2, [⟨.grandFinal, 1, 2, 2⟩, ⟨.grandFinalReset, 1, 2, 2⟩]⟩) ∧
    runDE (fun a _ => a) ⟨[1], [2], false, none, []⟩ =
      ⟨[1], [2], false, some 1, [⟨.grandFinal, 1, 2, 1⟩]⟩ :=
  ⟨⟨by decide, (grandFinal_reset_iff (fun _ b => b) 1 2 (by decide)).2 rfl⟩,
    (grandFinal_reset_iff (fun a _ => a) 1 2 (by decide)).1 rfl⟩

end NRC
